import Mathlib

/-!
Verification of the ENTSO-E generation-fetch pipeline
(`src/streamlit_app.py` and `src/entsoe_bot.py`).

Timestamps (`pandas.Timestamp`, tz="UTC") are embedded as a proleptic-Gregorian
calendar record `DateTime` with minute resolution (the program only ever builds
timestamps at whole minutes: `00:00` and `23:59`).  Chronological comparison of
two UTC timestamps is comparison of `toMinutes`, the exact count of minutes
since 0000-01-01 00:00.  `dateutil.relativedelta(months=1)` is embedded as
`addMonth` (advance one calendar month, clamping the day-of-month to the target
month's length).  Numeric cell values are embedded as exact rationals.
-/

/-- Gregorian leap-year test (as used by the proleptic calendar underlying
`pandas.Timestamp` / `dateutil`). -/
def isLeap (y : Nat) : Bool :=
  y % 4 == 0 && (y % 100 != 0 || y % 400 == 0)

/-- Number of days in month `m` (1..12) of year `y`. -/
def daysInMonth (y m : Nat) : Nat :=
  if m = 2 then (if isLeap y then 29 else 28)
  else if m = 4 ∨ m = 6 ∨ m = 9 ∨ m = 11 then 30
  else 31

/-- Number of days in year `y`. -/
def daysInYear (y : Nat) : Nat :=
  if isLeap y then 366 else 365

/-- Days in all years before year `y` (proleptic Gregorian, counted from year
0), in closed form: 365 per year plus one for every leap year in `[0, y)`
(multiples of 4, minus multiples of 100, plus multiples of 400; year 0 is
leap).  `daysBeforeYear_succ` checks this against the per-year count. -/
def daysBeforeYear (y : Nat) : Nat :=
  365 * y + (y + 3) / 4 - (y + 99) / 100 + (y + 399) / 400

/-- Days in the months of year `y` strictly before month `m`. -/
def daysBeforeMonth (y : Nat) : Nat → Nat
  | 0 => 0
  | 1 => 0
  | m + 1 => daysBeforeMonth y m + daysInMonth y m

/-- A UTC timestamp at minute resolution: the embedding of a
`pandas.Timestamp` with `tz="UTC"` as produced by the program. -/
structure DateTime where
  year : Nat
  month : Nat
  day : Nat
  hour : Nat
  minute : Nat
deriving DecidableEq

/-- Minutes since 0000-01-01 00:00 UTC: the linearisation under which
`pandas.Timestamp` comparison, `min`, and subtraction operate. -/
def DateTime.toMinutes (d : DateTime) : Nat :=
  ((daysBeforeYear d.year + daysBeforeMonth d.year d.month + (d.day - 1)) * 24
      + d.hour) * 60 + d.minute

/-- A `DateTime` that denotes an actual calendar instant. -/
def ValidD (d : DateTime) : Prop :=
  1 ≤ d.month ∧ d.month ≤ 12 ∧ 1 ≤ d.day ∧ d.day ≤ daysInMonth d.year d.month
    ∧ d.hour ≤ 23 ∧ d.minute ≤ 59

instance (d : DateTime) : Decidable (ValidD d) := by
  unfold ValidD; infer_instance

/-- Embedding of `cur + relativedelta(months=1)`: advance one calendar month,
clamping the day-of-month to the length of the target month (dateutil
semantics), keeping the time of day. -/
def addMonth (d : DateTime) : DateTime :=
  let y := if d.month = 12 then d.year + 1 else d.year
  let m := if d.month = 12 then 1 else d.month + 1
  { year := y, month := m, day := min d.day (daysInMonth y m),
    hour := d.hour, minute := d.minute }

/-- Embedding of Python `min` on two timestamps (returns the first argument
when they compare equal, exactly like `min(a, b)`). -/
def minD (a b : DateTime) : DateTime :=
  if a.toMinutes ≤ b.toMinutes then a else b

/-- The body of `iter_months` (`streamlit_app.py` lines 169-174) and of the
equivalent `while current_start < end_date` chunk loop in `entsoe_bot.py`
(lines 39-55): while `cur < end`, emit `(cur, min(cur + 1 month, end))` and
continue from the chunk's end.  `fuel` is a termination bound only: one unit
is consumed per loop iteration, and `iter_months` supplies enough fuel that
the loop is never cut short (each iteration advances `cur` by at least one
minute, see `toMinutes_addMonth_gt`). -/
def iterMonthsAux : Nat → DateTime → DateTime → List (DateTime × DateTime)
  | 0, _, _ => []
  | fuel + 1, s, e =>
    if s.toMinutes < e.toMinutes then
      (s, minD (addMonth s) e) :: iterMonthsAux fuel (minD (addMonth s) e) e
    else []

/-- `iter_months(start_ts, end_ts)` from `streamlit_app.py`. -/
def iter_months (s e : DateTime) : List (DateTime × DateTime) :=
  iterMonthsAux (e.toMinutes - s.toMinutes) s e

/-- `covers s e l`: the sub-intervals in `l` tile `[s, e)` in order — each
element starts exactly where the previous one ended, the first starts at `s`,
and the last ends at the instant `e`. -/
def covers (s e : DateTime) : List (DateTime × DateTime) → Prop
  | [] => s.toMinutes = e.toMinutes
  | (a, b) :: rest => a = s ∧ covers b e rest

lemma daysInMonth_ge (y m : Nat) : 28 ≤ daysInMonth y m := by
  unfold daysInMonth
  split_ifs <;> omega

lemma daysBeforeMonth_succ (y m : Nat) (h : 1 ≤ m) :
    daysBeforeMonth y (m + 1) = daysBeforeMonth y m + daysInMonth y m := by
  match m, h with
  | m + 1, _ => rfl

lemma isLeap_iff (y : Nat) :
    isLeap y = true ↔ (y % 4 = 0 ∧ (y % 100 ≠ 0 ∨ y % 400 = 0)) := by
  simp [isLeap, Bool.and_eq_true, beq_iff_eq, Bool.or_eq_true, bne_iff_ne]

set_option maxHeartbeats 1000000 in
lemma daysBeforeYear_succ (y : Nat) :
    daysBeforeYear (y + 1) = daysBeforeYear y + daysInYear y := by
  unfold daysBeforeYear daysInYear
  split_ifs with h
  · rw [isLeap_iff] at h; omega
  · rw [isLeap_iff] at h; omega

lemma daysBeforeMonth_year (y : Nat) :
    daysBeforeMonth y 12 + daysInMonth y 12 = daysInYear y := by
  cases h : isLeap y <;>
    norm_num [daysBeforeMonth, daysInMonth, daysInYear, h]

lemma addMonth_valid {d : DateTime} (h : ValidD d) : ValidD (addMonth d) := by
  obtain ⟨h1, h2, h3, h4, h5, h6⟩ := h
  by_cases h12 : d.month = 12
  · have hg := daysInMonth_ge (d.year + 1) 1
    simp only [ValidD, addMonth, h12, reduceIte]
    omega
  · have hg := daysInMonth_ge d.year (d.month + 1)
    simp only [ValidD, addMonth, h12, reduceIte]
    omega

lemma toMinutes_addMonth_gt {d : DateTime} (h : ValidD d) :
    d.toMinutes < (addMonth d).toMinutes := by
  obtain ⟨h1, h2, h3, h4, h5, h6⟩ := h
  unfold addMonth DateTime.toMinutes
  by_cases h12 : d.month = 12
  · have hd12 : daysInMonth d.year 12 = 31 := by norm_num [daysInMonth]
    have hy := daysBeforeMonth_year d.year
    have hby : daysBeforeYear (d.year + 1) = daysBeforeYear d.year + daysInYear d.year :=
      daysBeforeYear_succ d.year
    simp only [h12, reduceIte] at *
    have hdbm1 : daysBeforeMonth (d.year + 1) 1 = 0 := rfl
    have hmin : min d.day (daysInMonth (d.year + 1) 1) ≥ 1 := by
      have := daysInMonth_ge (d.year + 1) 1; omega
    simp only [hby, hdbm1]
    rw [hd12] at h4
    have : min d.day (daysInMonth (d.year + 1) 1) ≤ d.day := Nat.min_le_left _ _
    omega
  · have hsucc := daysBeforeMonth_succ d.year d.month h1
    have hge := daysInMonth_ge d.year (d.month + 1)
    have hmin1 : 1 ≤ min d.day (daysInMonth d.year (d.month + 1)) := by omega
    have hminle : min d.day (daysInMonth d.year (d.month + 1)) ≤ d.day :=
      Nat.min_le_left _ _
    simp only [h12, reduceIte]
    rw [hsucc]
    have h4' : d.day ≤ daysInMonth d.year d.month := h4
    have hgem := daysInMonth_ge d.year d.month
    omega

lemma minD_valid {a b : DateTime} (ha : ValidD a) (hb : ValidD b) :
    ValidD (minD a b) := by
  unfold minD; split <;> assumption

lemma minD_le_right (a b : DateTime) : (minD a b).toMinutes ≤ b.toMinutes := by
  unfold minD; split <;> omega

lemma minD_le_left (a b : DateTime) : (minD a b).toMinutes ≤ a.toMinutes := by
  unfold minD; split <;> omega

lemma iterMonthsAux_nil {fuel : Nat} {s e : DateTime}
    (h : ¬ s.toMinutes < e.toMinutes) : iterMonthsAux fuel s e = [] := by
  cases fuel <;> simp [iterMonthsAux, h]

/-- Main induction for the Range Splitter: with enough fuel, the emitted
chunks tile `[s, e)`, each chunk is non-empty, valid, at most one calendar
month long, and every minute `t` is covered by exactly one chunk iff
`s ≤ t < e`. -/
lemma iterMonthsAux_spec : ∀ (fuel : Nat) (s e : DateTime), ValidD s → ValidD e →
    e.toMinutes - s.toMinutes ≤ fuel → s.toMinutes < e.toMinutes →
    covers s e (iterMonthsAux fuel s e) ∧
    (∀ p ∈ iterMonthsAux fuel s e, ValidD p.1 ∧ ValidD p.2 ∧
      p.1.toMinutes < p.2.toMinutes ∧ p.2.toMinutes ≤ (addMonth p.1).toMinutes) ∧
    (∀ t : Nat,
      (iterMonthsAux fuel s e).countP
          (fun p => decide (p.1.toMinutes ≤ t ∧ t < p.2.toMinutes)) =
        if s.toMinutes ≤ t ∧ t < e.toMinutes then 1 else 0) := by
  intro fuel
  induction fuel with
  | zero => intro s e _ _ hf hlt; omega
  | succ f ih =>
    intro s e hs he hf hlt
    have hvam : ValidD (addMonth s) := addMonth_valid hs
    have hvn : ValidD (minD (addMonth s) e) := minD_valid hvam he
    have hgt : s.toMinutes < (minD (addMonth s) e).toMinutes := by
      have h1 := toMinutes_addMonth_gt hs
      unfold minD; split <;> omega
    have hle : (minD (addMonth s) e).toMinutes ≤ e.toMinutes :=
      minD_le_right _ _
    have hleam : (minD (addMonth s) e).toMinutes ≤ (addMonth s).toMinutes :=
      minD_le_left _ _
    simp only [iterMonthsAux, if_pos hlt]
    by_cases hc : (minD (addMonth s) e).toMinutes < e.toMinutes
    · have hrec := ih (minD (addMonth s) e) e hvn he (by omega) hc
      obtain ⟨hcov, hprops, hcnt⟩ := hrec
      refine ⟨⟨rfl, hcov⟩, ?_, ?_⟩
      · intro p hp
        rcases List.mem_cons.mp hp with hp1 | hp2
        · subst hp1; exact ⟨hs, hvn, hgt, hleam⟩
        · exact hprops p hp2
      · intro t
        rw [List.countP_cons, hcnt t]
        simp only [decide_eq_true_eq]
        split_ifs <;> omega
    · have heq : (minD (addMonth s) e).toMinutes = e.toMinutes := by omega
      rw [iterMonthsAux_nil (by omega)]
      refine ⟨⟨rfl, heq⟩, ?_, ?_⟩
      · intro p hp
        rcases List.mem_cons.mp hp with hp1 | hp2
        · subst hp1; exact ⟨hs, hvn, hgt, hleam⟩
        · simp at hp2
      · intro t
        simp only [List.countP_cons, List.countP_nil, decide_eq_true_eq]
        split_ifs <;> omega

/-- C1: for every valid range with start < end, `iter_months` (and the
equivalent while-loop of `entsoe_bot.py`) yields a non-empty ordered list of
sub-intervals that starts at `start`, is contiguous (each chunk begins where
the previous one ended) and ends at `end`, with every chunk non-empty and at
most one calendar month long; every minute `t` lies in exactly one chunk iff
`start ≤ t < end`, i.e. the chunks are non-overlapping and their union is
exactly `[start, end)`. -/
theorem iter_months_splits_range (s e : DateTime)
    (hs : ValidD s) (he : ValidD e) (hlt : s.toMinutes < e.toMinutes) :
    iter_months s e ≠ [] ∧
    covers s e (iter_months s e) ∧
    (∀ p ∈ iter_months s e, p.1.toMinutes < p.2.toMinutes ∧
      p.2.toMinutes ≤ (addMonth p.1).toMinutes) ∧
    (∀ t : Nat,
      (iter_months s e).countP
          (fun p => decide (p.1.toMinutes ≤ t ∧ t < p.2.toMinutes)) =
        if s.toMinutes ≤ t ∧ t < e.toMinutes then 1 else 0) := by
  have hspec :=
    iterMonthsAux_spec (e.toMinutes - s.toMinutes) s e hs he (le_refl _) hlt
  obtain ⟨hcov, hprops, hcnt⟩ := hspec
  refine ⟨?_, hcov, fun p hp => ⟨(hprops p hp).2.2.1, (hprops p hp).2.2.2⟩, hcnt⟩
  unfold iter_months
  obtain ⟨f, hf⟩ : ∃ f, e.toMinutes - s.toMinutes = f + 1 :=
    ⟨e.toMinutes - s.toMinutes - 1, by omega⟩
  rw [hf]
  simp [iterMonthsAux, hlt]

/-- Concrete range 2025-01-01 00:00 UTC → 2025-02-15 23:59 UTC used by
witnesses. -/
def startW : DateTime := ⟨2025, 1, 1, 0, 0⟩

/-- End of the concrete witness range. -/
def endW : DateTime := ⟨2025, 2, 15, 23, 59⟩

set_option maxRecDepth 40000 in
/-- Witness for C1 at the concrete range 2025-01-01 → 2025-02-15. -/
theorem iter_months_splits_range_witness :
    iter_months startW endW ≠ [] ∧
    covers startW endW (iter_months startW endW) ∧
    (∀ p ∈ iter_months startW endW, p.1.toMinutes < p.2.toMinutes ∧
      p.2.toMinutes ≤ (addMonth p.1).toMinutes) ∧
    (∀ t : Nat,
      (iter_months startW endW).countP
          (fun p => decide (p.1.toMinutes ≤ t ∧ t < p.2.toMinutes)) =
        if startW.toMinutes ≤ t ∧ t < endW.toMinutes then 1 else 0) :=
  iter_months_splits_range startW endW (by decide) (by decide) (by decide)

/-- C7 counterexample: on a range with start = end, and on an inverted range,
`iter_months` returns the empty list of sub-intervals and raises nothing (the
loop body is never entered; the embedding is a total function with no error
outcome) — contradicting the claim that such ranges fail with
`InvalidRangeError` before any fetch. -/
theorem splitter_invalid_range_counterexample :
    iter_months startW startW = [] ∧ iter_months endW startW = [] := by
  constructor <;> rfl

/-- C7 (amended): for every range with start ≥ end the splitter returns the
empty sequence of sub-intervals without raising any error. -/
theorem splitter_empty_on_invalid (s e : DateTime)
    (h : e.toMinutes ≤ s.toMinutes) : iter_months s e = [] := by
  unfold iter_months
  rw [Nat.sub_eq_zero_of_le h]
  rfl

/-- Witness for the amended C7 at a concrete degenerate range. -/
theorem splitter_empty_on_invalid_witness :
    endW.toMinutes ≤ endW.toMinutes ∧ iter_months endW endW = [] :=
  ⟨le_refl _, splitter_empty_on_invalid endW endW (le_refl _)⟩

/-- Rows of the DataFrame returned by one successful `client.query_generation`
call: (timestamp in minutes, value) pairs.  Values are exact rationals; the
dedup/resample pipeline treats every generation-category column identically
and independently, so a row is represented by a single value. -/
abbrev Chunk := List (Nat × ℚ)

/-- The hourly output of `fetch_zone_generation`: one row per hour, `none`
when the hour bucket is empty (pandas emits NaN there). -/
abbrev Series := List (Nat × Option ℚ)

/-- The content of the `RuntimeError` raised on line 203:
`f"Failed after {max_retries} retries for {zone_domain} {s}→{e}: {ex}"`. -/
structure FetchError where
  retries : Nat
  domain : String
  istart : DateTime
  iend : DateTime
  lastErr : String
deriving DecidableEq

/-- The retry loop of `fetch_zone_generation` (`streamlit_app.py` lines
189-205).  `call s e a` is the outcome of attempt number `a` (0-based) of
`client.query_generation(zone_domain, s, e)`: `.ok` with the returned rows,
or `.error` with the exception text.  `attempt` is the Python counter (the
number of failures so far); on an exception it is incremented and, once it
exceeds `max_retries`, the `RuntimeError` reporting `max_retries` retries and
carrying the last exception is raised; otherwise the loop sleeps
`backoff_base ** attempt` seconds (no effect on the returned value, hence not
modelled) and re-attempts.  `fuel` only bounds the recursion: the loop makes
at most `maxRetries + 1 - attempt` further calls, `retryLoop` passes
`maxRetries + 1`, and the fuel-0 branch is unreachable (`retryAux_ok` and
`retryAux_exhausted` characterise every outcome without it). -/
def retryAux (call : DateTime → DateTime → Nat → Except String Chunk)
    (maxRetries : Nat) (domain : String) (s e : DateTime) :
    Nat → Nat → Except FetchError Chunk
  | 0, _ => .error ⟨maxRetries, domain, s, e, "out of fuel"⟩
  | fuel + 1, attempt =>
    match call s e attempt with
    | .ok c => .ok c
    | .error ex =>
      if attempt + 1 > maxRetries then .error ⟨maxRetries, domain, s, e, ex⟩
      else retryAux call maxRetries domain s e fuel (attempt + 1)

/-- The `while True` retry loop entered with `attempt = 0`. -/
def retryLoop (call : DateTime → DateTime → Nat → Except String Chunk)
    (maxRetries : Nat) (domain : String) (s e : DateTime) :
    Except FetchError Chunk :=
  retryAux call maxRetries domain s e (maxRetries + 1) 0

lemma retryAux_ok (call : DateTime → DateTime → Nat → Except String Chunk)
    (maxRetries : Nat) (domain : String) (s e : DateTime) (c : Chunk) :
    ∀ (fuel attempt k : Nat), attempt ≤ k → k ≤ maxRetries →
      k + 1 - attempt ≤ fuel →
      (∀ i, attempt ≤ i → i < k → ∃ m, call s e i = .error m) →
      call s e k = .ok c →
      retryAux call maxRetries domain s e fuel attempt = .ok c := by
  intro fuel
  induction fuel with
  | zero => intro attempt k h1 h2 h3 _ _; omega
  | succ f ih =>
    intro attempt k h1 h2 h3 hfail hok
    by_cases hak : attempt = k
    · subst hak
      simp [retryAux, hok]
    · obtain ⟨m, hm⟩ := hfail attempt (le_refl _) (by omega)
      simp only [retryAux, hm]
      rw [if_neg (by omega)]
      exact ih (attempt + 1) k (by omega) h2 (by omega)
        (fun i hi1 hi2 => hfail i (by omega) hi2) hok

lemma retryAux_exhausted (call : DateTime → DateTime → Nat → Except String Chunk)
    (maxRetries : Nat) (domain : String) (s e : DateTime) (em : Nat → String) :
    ∀ (fuel attempt : Nat), attempt ≤ maxRetries →
      maxRetries + 1 - attempt ≤ fuel →
      (∀ i, attempt ≤ i → i ≤ maxRetries → call s e i = .error (em i)) →
      retryAux call maxRetries domain s e fuel attempt =
        .error ⟨maxRetries, domain, s, e, em maxRetries⟩ := by
  intro fuel
  induction fuel with
  | zero => intro attempt h1 h2 _; omega
  | succ f ih =>
    intro attempt h1 h2 hfail
    have hm := hfail attempt (le_refl _) h1
    simp only [retryAux, hm]
    by_cases hlast : attempt = maxRetries
    · subst hlast
      rw [if_pos (by omega)]
    · rw [if_neg (by omega)]
      exact ih (attempt + 1) (by omega) (by omega)
        (fun i hi1 hi2 => hfail i (by omega) hi2)

/-- A call oracle that fails on attempts 0..4 (the 1st through 5th attempts)
and succeeds on attempt 5 (the 6th). -/
def callFiveFails : DateTime → DateTime → Nat → Except String Chunk :=
  fun _ _ attempt =>
    if attempt < 5 then .error "connection reset" else .ok [(0, 10)]

/-- C2 counterexample: with the default `max_retries = 5`, a call whose first
five attempts all fail is *not* aborted "after the 5th failed attempt" as the
claim states — the loop makes a 6th attempt and returns its successful
result.  The first five conjuncts exhibit the five failures; the last shows
the loop succeeding, so at least 6 attempts of the underlying call are made. -/
theorem retry_claim_counterexample :
    callFiveFails startW endW 0 = .error "connection reset" ∧
    callFiveFails startW endW 1 = .error "connection reset" ∧
    callFiveFails startW endW 2 = .error "connection reset" ∧
    callFiveFails startW endW 3 = .error "connection reset" ∧
    callFiveFails startW endW 4 = .error "connection reset" ∧
    retryLoop callFiveFails 5 "FR" startW endW = .ok [(0, 10)] :=
  ⟨rfl, rfl, rfl, rfl, rfl, rfl⟩

/-- C2 (corrected): with the default `max_retries = 5` the fetch makes at most
6 attempts of the underlying call per sub-interval.  A fetch whose underlying
call fails on the first `k ≤ 5` attempts and succeeds on attempt `k` (so in
particular one that fails 4 times and succeeds on the 5th attempt) returns the
successful result, and one whose underlying call always fails raises the
`RuntimeError` (the `FetchExhaustedError` of the spec) after the **6th**
failed attempt, reporting `max_retries = 5` retries and carrying the 6th
attempt's underlying error. -/
theorem retry_attempt_bounds
    (call : DateTime → DateTime → Nat → Except String Chunk)
    (domain : String) (s e : DateTime) (em : Nat → String) (c : Chunk) :
    (∀ k, k ≤ 5 → (∀ i, i < k → call s e i = .error (em i)) →
      call s e k = .ok c → retryLoop call 5 domain s e = .ok c) ∧
    ((∀ i, i ≤ 5 → call s e i = .error (em i)) →
      retryLoop call 5 domain s e = .error ⟨5, domain, s, e, em 5⟩) := by
  constructor
  · intro k hk hfail hok
    exact retryAux_ok call 5 domain s e c 6 0 k (by omega) hk (by omega)
      (fun i _ hi => ⟨em i, hfail i hi⟩) hok
  · intro hfail
    exact retryAux_exhausted call 5 domain s e em 6 0 (by omega) (by omega)
      (fun i _ hi => hfail i hi)

/-- A call oracle failing on attempts 0..3 and succeeding on attempt 4
(the 5th attempt). -/
def callFourFails : DateTime → DateTime → Nat → Except String Chunk :=
  fun _ _ attempt =>
    if attempt < 4 then .error "timeout" else .ok [(0, 10)]

/-- A call oracle that fails on every attempt. -/
def callAlwaysFails : DateTime → DateTime → Nat → Except String Chunk :=
  fun _ _ _ => .error "timeout"

/-- Witness for the corrected C2: failing 4 times and succeeding on the 5th
attempt returns the result; always failing raises the error that reports 5
retries and carries the last (6th) attempt's message. -/
theorem retry_attempt_bounds_witness :
    retryLoop callFourFails 5 "FR" startW endW = .ok [(0, 10)] ∧
    retryLoop callAlwaysFails 5 "FR" startW endW =
      .error ⟨5, "FR", startW, endW, "timeout"⟩ :=
  ⟨(retry_attempt_bounds callFourFails "FR" startW endW (fun _ => "timeout")
      [(0, 10)]).1 4 (by omega)
      (fun i hi => by interval_cases i <;> rfl) rfl,
    (retry_attempt_bounds callAlwaysFails "FR" startW endW (fun _ => "timeout")
      [(0, 10)]).2 (fun i _ => rfl)⟩

/-- The boolean mask filter `full[~full.index.duplicated(keep="last")]`
(line 214): a row is kept iff no later row of the concatenated frame carries
the same timestamp. -/
def dedupKeepLast : List (Nat × ℚ) → List (Nat × ℚ)
  | [] => []
  | p :: rest =>
    if rest.any (fun q => q.1 == p.1) then dedupKeepLast rest
    else p :: dedupKeepLast rest

/-- Insertion step of `sort_index()` (line 214). -/
def insertRow (p : Nat × ℚ) : List (Nat × ℚ) → List (Nat × ℚ)
  | [] => [p]
  | q :: rest => if p.1 ≤ q.1 then p :: q :: rest else q :: insertRow p rest

/-- `sort_index()` (line 214): stable sort of the rows by timestamp. -/
def sortIndex (l : List (Nat × ℚ)) : List (Nat × ℚ) :=
  l.foldr insertRow []

/-- One bucket of `resample("H").mean()` (line 215): the arithmetic mean of
the values whose timestamp falls into hour `h`, or `none` (pandas NaN) for an
empty bucket. -/
def hourlyMean (l : List (Nat × ℚ)) (h : Nat) : Option ℚ :=
  let xs := l.filter (fun p => p.1 / 60 == h)
  if xs.isEmpty then none
  else some ((xs.map (fun p => p.2)).sum / (xs.length : ℚ))

/-- `resample("H").mean()` (line 215): one row per hour, from the hour bucket
of the earliest timestamp to that of the latest (pandas materialises every
hour in between, filling empty buckets with NaN). -/
def resampleH : List (Nat × ℚ) → List (Nat × Option ℚ)
  | [] => []
  | p :: rest =>
    let rows := p :: rest
    let hs := rows.map (fun q => q.1 / 60)
    let lo := hs.foldl min (p.1 / 60)
    let hi := hs.foldl max (p.1 / 60)
    (List.range (hi + 1 - lo)).map
      (fun i => ((lo + i) * 60, hourlyMean rows (lo + i)))

/-- The per-sub-interval loop of `fetch_zone_generation` (lines 187-205):
every sub-interval is fetched through the retry loop and its frame appended
(an empty DataFrame is appended as an empty frame, exactly like the code's
`frames.append(df)` after the `df.empty` check); the first sub-interval that
exhausts its retries propagates the `RuntimeError`, abandoning the whole call
and discarding the local `frames` accumulator. -/
def fetchFrames (call : DateTime → DateTime → Nat → Except String Chunk)
    (maxRetries : Nat) (domain : String) :
    List (DateTime × DateTime) → Except FetchError (List Chunk)
  | [] => .ok []
  | (s, e) :: rest =>
    match retryLoop call maxRetries domain s e with
    | .error fe => .error fe
    | .ok c =>
      match fetchFrames call maxRetries domain rest with
      | .error fe => .error fe
      | .ok cs => .ok (c :: cs)

/-- `fetch_zone_generation` (lines 176-216), with the network call abstracted
as the oracle `call`: month-chunk the range, fetch each chunk with retries,
concatenate, dedup keeping the last occurrence of each timestamp, sort by
timestamp, and resample to hourly means.  An empty chunk list or an entirely
empty concatenation returns the empty DataFrame. -/
def fetch_zone_generation (call : DateTime → DateTime → Nat → Except String Chunk)
    (maxRetries : Nat) (domain : String) (startTs endTs : DateTime) :
    Except FetchError Series :=
  match fetchFrames call maxRetries domain (iter_months startTs endTs) with
  | .error fe => .error fe
  | .ok frames =>
    if frames.isEmpty then .ok []
    else
      let full := frames.flatten
      if full.isEmpty then .ok []
      else .ok (resampleH (sortIndex (dedupKeepLast full)))

/-- The value of the last row of `l` whose timestamp is `t` (the row that
`keep="last"` deduplication retains). -/
def lastValue (l : List (Nat × ℚ)) (t : Nat) : Option ℚ :=
  ((l.filter (fun p => p.1 == t)).getLast?).map (fun p => p.2)

lemma insertRow_perm (p : Nat × ℚ) (l : List (Nat × ℚ)) :
    (insertRow p l).Perm (p :: l) := by
  induction l with
  | nil => simp [insertRow]
  | cons q rest ih =>
    by_cases h : p.1 ≤ q.1
    · simp [insertRow, h]
    · simp only [insertRow, h, if_neg, reduceIte]
      exact (ih.cons q).trans (List.Perm.swap p q rest)

lemma sortIndex_perm (l : List (Nat × ℚ)) : (sortIndex l).Perm l := by
  induction l with
  | nil => simp [sortIndex]
  | cons q rest ih =>
    have : sortIndex (q :: rest) = insertRow q (sortIndex rest) := rfl
    rw [this]
    exact (insertRow_perm q (sortIndex rest)).trans (ih.cons q)


lemma not_any_not_mem {l : List (Nat × ℚ)} {t : Nat}
    (h : l.any (fun p => p.1 == t) = false) : ∀ v : ℚ, (t, v) ∉ l := by
  intro v hv
  have hx : l.any (fun p => p.1 == t) = true := by
    rw [List.any_eq_true]
    exact ⟨(t, v), hv, by simp⟩
  rw [h] at hx
  exact Bool.false_ne_true hx

lemma dedupKeepLast_sublist (l : List (Nat × ℚ)) :
    (dedupKeepLast l).Sublist l := by
  induction l with
  | nil => simp [dedupKeepLast]
  | cons p rest ih =>
    cases hdup : rest.any (fun q => q.1 == p.1) <;>
      simp only [dedupKeepLast, hdup, if_pos, if_neg, Bool.false_eq_true,
        reduceIte]
    · exact ih.cons₂ p
    · exact ih.cons p

lemma getLast?_cons_ne_nil {α : Type} {fr : List α} (hne : fr ≠ []) (p : α) :
    (p :: fr).getLast? = fr.getLast? := by
  cases fr with
  | nil => exact absurd rfl hne
  | cons b l => exact List.getLast?_cons_cons

/-- `keep="last"` deduplication retains, for each timestamp, exactly the last
row of the concatenated frame carrying it: `(t, v)` survives the mask iff `v`
is the value of the last row with timestamp `t`. -/
lemma dedupKeepLast_mem_iff (l : List (Nat × ℚ)) (t : Nat) (v : ℚ) :
    (t, v) ∈ dedupKeepLast l ↔ lastValue l t = some v := by
  induction l with
  | nil => simp [dedupKeepLast, lastValue]
  | cons p rest ih =>
    cases hdup : rest.any (fun q => q.1 == p.1) with
    | true =>
      rw [show dedupKeepLast (p :: rest) = dedupKeepLast rest by
        simp [dedupKeepLast, hdup]]
      rw [ih]
      by_cases ht : p.1 = t
      · subst ht
        have hne : rest.filter (fun q => q.1 == p.1) ≠ [] := by
          obtain ⟨q, hq, hq2⟩ := List.any_eq_true.mp hdup
          exact List.ne_nil_of_mem (List.mem_filter.mpr ⟨hq, hq2⟩)
        unfold lastValue
        rw [List.filter_cons_of_pos (by simp)]
        rw [getLast?_cons_ne_nil hne]
      · unfold lastValue
        rw [List.filter_cons_of_neg (by simp [ht])]
    | false =>
      rw [show dedupKeepLast (p :: rest) = p :: dedupKeepLast rest by
        simp [dedupKeepLast, hdup]]
      by_cases ht : p.1 = t
      · subst ht
        have hrest : rest.filter (fun q => q.1 == p.1) = [] := by
          rw [List.filter_eq_nil_iff]
          intro q hq hc
          have hany : rest.any (fun q => q.1 == p.1) = true := by
            rw [List.any_eq_true]
            exact ⟨q, hq, hc⟩
          rw [hdup] at hany
          exact Bool.false_ne_true hany
        unfold lastValue
        rw [List.filter_cons_of_pos (by simp), hrest]
        constructor
        · intro hmem
          rcases List.mem_cons.mp hmem with heq | hmem2
          · have hv2 : v = p.2 := congrArg Prod.snd heq
            subst hv2
            rfl
          · exact absurd ((dedupKeepLast_sublist rest).mem hmem2)
              (not_any_not_mem hdup v)
        · intro hv
          have hv2 : p.2 = v := by
            have hl : (p :: ([] : List (Nat × ℚ))).getLast? = some p := rfl
            rw [hl] at hv
            simpa using hv
          subst hv2
          exact List.mem_cons.mpr (Or.inl rfl)
      · constructor
        · intro hmem
          rcases List.mem_cons.mp hmem with heq | hmem2
          · exact absurd (congrArg Prod.fst heq).symm ht
          · have hr := ih.mp hmem2
            unfold lastValue at hr ⊢
            rwa [List.filter_cons_of_neg (by simp [ht])]
        · intro hv
          have hr : lastValue rest t = some v := by
            unfold lastValue at hv ⊢
            rwa [List.filter_cons_of_neg (by simp [ht])] at hv
          exact List.mem_cons_of_mem _ (ih.mpr hr)

lemma lastValue_append (a b : List (Nat × ℚ)) (t : Nat) :
    lastValue (a ++ b) t =
      if b.any (fun p => p.1 == t) = true then lastValue b t
      else lastValue a t := by
  unfold lastValue
  rw [List.filter_append]
  by_cases h : b.any (fun p => p.1 == t) = true
  · rw [if_pos h]
    have hne : b.filter (fun p => p.1 == t) ≠ [] := by
      obtain ⟨q, hq, hq2⟩ := List.any_eq_true.mp h
      exact List.ne_nil_of_mem (List.mem_filter.mpr ⟨hq, hq2⟩)
    obtain ⟨x, hx⟩ : ∃ x, (b.filter (fun p => p.1 == t)).getLast? = some x := by
      cases hgl : (b.filter (fun p => p.1 == t)).getLast? with
      | none => exact absurd (List.getLast?_eq_none_iff.mp hgl) hne
      | some x => exact ⟨x, rfl⟩
    rw [List.getLast?_append, hx]
    rfl
  · rw [if_neg h]
    have hnil : b.filter (fun p => p.1 == t) = [] := by
      rw [List.filter_eq_nil_iff]
      intro q hq hc
      exact h (List.any_eq_true.mpr ⟨q, hq, hc⟩)
    rw [hnil, List.append_nil]

lemma any_of_lastValue_some {c : List (Nat × ℚ)} {t : Nat} {v : ℚ}
    (h : lastValue c t = some v) : c.any (fun p => p.1 == t) = true := by
  unfold lastValue at h
  cases hf : c.filter (fun p => p.1 == t) with
  | nil => rw [hf] at h; simp at h
  | cons x xs =>
    have hx : x ∈ c.filter (fun p => p.1 == t) := by
      rw [hf]; exact List.mem_cons_self x xs
    have hm := List.mem_filter.mp hx
    exact List.any_eq_true.mpr ⟨x, hm.1, hm.2⟩

lemma foldl_max_seed_le (l : List Nat) : ∀ a : Nat, a ≤ l.foldl max a := by
  induction l with
  | nil => intro a; exact le_refl a
  | cons y rest ih =>
    intro a
    have h2 := ih (max a y)
    show a ≤ rest.foldl max (max a y)
    omega

lemma le_foldl_max (l : List Nat) : ∀ (a x : Nat), x ∈ l → x ≤ l.foldl max a := by
  induction l with
  | nil => intro a x hx; cases hx
  | cons y rest ih =>
    intro a x hx
    rcases List.mem_cons.mp hx with rfl | hx2
    · have h2 := foldl_max_seed_le rest (max a x)
      show x ≤ rest.foldl max (max a x)
      omega
    · exact ih (max a y) x hx2

lemma foldl_min_seed_le (l : List Nat) : ∀ a : Nat, l.foldl min a ≤ a := by
  induction l with
  | nil => intro a; exact le_refl a
  | cons y rest ih =>
    intro a
    have h2 := ih (min a y)
    show rest.foldl min (min a y) ≤ a
    omega

lemma foldl_min_le (l : List Nat) : ∀ (a x : Nat), x ∈ l → l.foldl min a ≤ x := by
  induction l with
  | nil => intro a x hx; cases hx
  | cons y rest ih =>
    intro a x hx
    rcases List.mem_cons.mp hx with rfl | hx2
    · have h2 := foldl_min_seed_le rest (min a x)
      show rest.foldl min (min a x) ≤ x
      omega
    · exact ih (min a y) x hx2

/-- The hourly index produced by `resample("H")` is strictly one row per
hour: no duplicate timestamps in the output. -/
lemma resampleH_ts_nodup (l : List (Nat × ℚ)) :
    ((resampleH l).map (fun r => r.1)).Nodup := by
  cases l with
  | nil => simp [resampleH]
  | cons p rest =>
    simp only [resampleH, List.map_map]
    refine List.Nodup.map ?_ (List.nodup_range _)
    intro a b hab
    simp only [Function.comp] at hab
    omega

/-- C5: last-write-wins deduplication.  For any ordered chunk sequence
`pre ++ ci :: mid ++ cj :: suf` in which an earlier chunk `ci` carries
timestamp `t` with value `vi`, the later chunk `cj` is the last chunk
carrying `t` and its last row at `t` has value `vj ≠ vi`, the merged series
(concatenate in interval order, dedup with `keep="last"`, sort) contains
`(t, vj)` — the value from the later chunk — and no other row at `t`;
moreover the final resampled output has no duplicate timestamps. -/
theorem assemble_last_write_wins
    (pre mid suf : List Chunk) (ci cj : Chunk) (t : Nat) (vi vj : ℚ)
    (hvi : (t, vi) ∈ ci) (hvj : lastValue cj t = some vj) (hne : vi ≠ vj)
    (hafter : suf.flatten.any (fun p => p.1 == t) = false) :
    (t, vj) ∈ sortIndex (dedupKeepLast (pre ++ ci :: mid ++ cj :: suf).flatten) ∧
    (∀ v : ℚ,
      (t, v) ∈ sortIndex (dedupKeepLast (pre ++ ci :: mid ++ cj :: suf).flatten) →
      v = vj) ∧
    ((resampleH (sortIndex
        (dedupKeepLast (pre ++ ci :: mid ++ cj :: suf).flatten))).map
      (fun r => r.1)).Nodup := by
  have hflat : (pre ++ ci :: mid ++ cj :: suf).flatten =
      pre.flatten ++ (ci ++ (mid.flatten ++ (cj ++ suf.flatten))) := by
    simp [List.flatten_append, List.flatten_cons, List.append_assoc]
  have h1 : lastValue (cj ++ suf.flatten) t = some vj := by
    rw [lastValue_append, hafter]
    simpa using hvj
  have hany1 : (cj ++ suf.flatten).any (fun p => p.1 == t) = true := by
    rw [List.any_append, any_of_lastValue_some hvj]
    rfl
  have h2 : lastValue (mid.flatten ++ (cj ++ suf.flatten)) t = some vj := by
    rw [lastValue_append, if_pos hany1]
    exact h1
  have hany2 :
      (mid.flatten ++ (cj ++ suf.flatten)).any (fun p => p.1 == t) = true := by
    rw [List.any_append, hany1]
    simp
  have h3 : lastValue (ci ++ (mid.flatten ++ (cj ++ suf.flatten))) t = some vj := by
    rw [lastValue_append, if_pos hany2]
    exact h2
  have hany3 :
      (ci ++ (mid.flatten ++ (cj ++ suf.flatten))).any (fun p => p.1 == t)
        = true := by
    rw [List.any_append, hany2]
    simp
  have h4 : lastValue
      (pre.flatten ++ (ci ++ (mid.flatten ++ (cj ++ suf.flatten)))) t
        = some vj := by
    rw [lastValue_append, if_pos hany3]
    exact h3
  have hlast : lastValue (pre ++ ci :: mid ++ cj :: suf).flatten t = some vj := by
    rw [hflat]; exact h4
  have hmemdedup :
      (t, vj) ∈ dedupKeepLast (pre ++ ci :: mid ++ cj :: suf).flatten :=
    (dedupKeepLast_mem_iff _ t vj).mpr hlast
  have hperm :=
    sortIndex_perm (dedupKeepLast (pre ++ ci :: mid ++ cj :: suf).flatten)
  refine ⟨hperm.mem_iff.mpr hmemdedup, ?_, resampleH_ts_nodup _⟩
  intro v hv
  have hlv := (dedupKeepLast_mem_iff _ t v).mp (hperm.mem_iff.mp hv)
  rw [hlast] at hlv
  exact (Option.some_inj.mp hlv).symm

/-- Witness for C5: chunks `[(00:00, 1)]` then `[(00:00, 2)]` — the merged
series keeps the later chunk's value 2 for the shared timestamp, uniquely. -/
theorem assemble_last_write_wins_witness :
    ((0 : Nat), (2 : ℚ)) ∈ sortIndex (dedupKeepLast
      (([] ++ [((0 : Nat), (1 : ℚ))] :: [] ++ [((0 : Nat), (2 : ℚ))] :: []).flatten)) ∧
    (∀ v : ℚ, ((0 : Nat), v) ∈ sortIndex (dedupKeepLast
      (([] ++ [((0 : Nat), (1 : ℚ))] :: [] ++ [((0 : Nat), (2 : ℚ))] :: []).flatten)) →
      v = 2) ∧
    ((resampleH (sortIndex (dedupKeepLast
      (([] ++ [((0 : Nat), (1 : ℚ))] :: [] ++ [((0 : Nat), (2 : ℚ))] :: []).flatten)))).map
      (fun r => r.1)).Nodup :=
  assemble_last_write_wins [] [] [] [(0, 1)] [(0, 2)] 0 1 2
    (List.mem_singleton.mpr rfl) rfl (by norm_num) rfl

/-- C6: hourly resampling aggregates by arithmetic mean — for every row list
and hour `h` whose bucket is inhabited, the resampled output contains the row
whose value is the sum of the bucket's values divided by their count. -/
theorem resample_hourly_mean (l : List (Nat × ℚ)) (h : Nat) (p0 : Nat × ℚ)
    (hp0 : p0 ∈ l) (hh : p0.1 / 60 = h) :
    (h * 60,
      some (((l.filter (fun p => p.1 / 60 == h)).map (fun p => p.2)).sum /
        ((l.filter (fun p => p.1 / 60 == h)).length : ℚ))) ∈ resampleH l := by
  cases l with
  | nil => cases hp0
  | cons q rest =>
    have hmem : p0.1 / 60 ∈ (q :: rest).map (fun r => r.1 / 60) :=
      List.mem_map_of_mem _ hp0
    have hlo : ((q :: rest).map (fun r => r.1 / 60)).foldl min (q.1 / 60) ≤ h := by
      rw [← hh]
      exact foldl_min_le _ _ _ hmem
    have hhi : h ≤ ((q :: rest).map (fun r => r.1 / 60)).foldl max (q.1 / 60) := by
      rw [← hh]
      exact le_foldl_max _ _ _ hmem
    show (h * 60, _) ∈ (List.range
        (((q :: rest).map (fun r => r.1 / 60)).foldl max (q.1 / 60) + 1 -
          ((q :: rest).map (fun r => r.1 / 60)).foldl min (q.1 / 60))).map
      (fun i => ((((q :: rest).map (fun r => r.1 / 60)).foldl min (q.1 / 60) + i) * 60,
        hourlyMean (q :: rest)
          (((q :: rest).map (fun r => r.1 / 60)).foldl min (q.1 / 60) + i)))
    rw [List.mem_map]
    refine ⟨h - ((q :: rest).map (fun r => r.1 / 60)).foldl min (q.1 / 60),
      List.mem_range.mpr (by omega), ?_⟩
    have hsub : ((q :: rest).map (fun r => r.1 / 60)).foldl min (q.1 / 60) +
        (h - ((q :: rest).map (fun r => r.1 / 60)).foldl min (q.1 / 60)) = h := by
      omega
    rw [hsub]
    have hxne : ((q :: rest).filter (fun p => p.1 / 60 == h)).isEmpty = false := by
      rw [List.isEmpty_eq_false]
      refine List.ne_nil_of_mem (a := p0) (List.mem_filter.mpr ⟨hp0, by simp [hh]⟩)
    simp [hourlyMean, hxne]

/-- Witness for C6: rows 00:00→10, 00:20→20, 00:40→30 fall into one hour
bucket and the assembled hourly value is the arithmetic mean 20. -/
theorem resample_hourly_mean_witness :
    (0 * 60,
      some (((([((0 : Nat), (10 : ℚ)), (20, 20), (40, 30)]).filter
          (fun p => p.1 / 60 == 0)).map (fun p => p.2)).sum /
        ((([((0 : Nat), (10 : ℚ)), (20, 20), (40, 30)]).filter
          (fun p => p.1 / 60 == 0)).length : ℚ))) ∈
      resampleH [((0 : Nat), (10 : ℚ)), (20, 20), (40, 30)] ∧
    ((([((0 : Nat), (10 : ℚ)), (20, 20), (40, 30)]).filter
        (fun p => p.1 / 60 == 0)).map (fun p => p.2)).sum /
      ((([((0 : Nat), (10 : ℚ)), (20, 20), (40, 30)]).filter
        (fun p => p.1 / 60 == 0)).length : ℚ) = 20 :=
  ⟨resample_hourly_mean [(0, 10), (20, 20), (40, 30)] 0 (0, 10)
      (List.mem_cons_self _ _) rfl,
    by norm_num⟩

deriving instance DecidableEq for Except

/-- Python-dict assignment `results[lbl] = df` (line 330): replace the entry
in place when the key exists, otherwise append (dict insertion order). -/
def dictSet (m : List (String × Series)) (k : String) (v : Series) :
    List (String × Series) :=
  if m.any (fun p => p.1 == k) then
    m.map (fun p => if p.1 == k then (k, v) else p)
  else m ++ [(k, v)]

/-- The observable outcome of the per-domain batch loop (lines 319-333):
`results` is the success dict, `errors` the per-target failure list (label
and captured error, the loop's `errors.append(f"{lbl}: {ex}")`), and `warned`
the labels for which only `st.warning(f"No data for {lbl}")` fired — an
empty successful fetch, recorded in neither `results` nor `errors`. -/
structure BatchOut where
  results : List (String × Series)
  errors : List (String × FetchError)
  warned : List String
deriving DecidableEq

/-- One iteration of the batch loop (lines 322-333): fetch the domain; on an
exception append the captured error; on an empty frame only warn; otherwise
store the frame under the domain's label. -/
def batchStep (zoneLabel : String → String)
    (fetch : String → Except FetchError Series) (acc : BatchOut)
    (domain : String) : BatchOut :=
  match fetch domain with
  | .ok df =>
    if df.isEmpty then { acc with warned := acc.warned ++ [zoneLabel domain] }
    else { acc with results := dictSet acc.results (zoneLabel domain) df }
  | .error ex => { acc with errors := acc.errors ++ [(zoneLabel domain, ex)] }

/-- The whole batch loop (`for i, domain in enumerate(chosen_zones, ...)`)
starting from empty results, errors and warnings. -/
def batchLoop (zoneLabel : String → String)
    (fetch : String → Except FetchError Series) (domains : List String) :
    BatchOut :=
  domains.foldl (batchStep zoneLabel fetch) ⟨[], [], []⟩

lemma countP_map_dict (m : List (String × Series)) (k l : String) (v : Series)
    (h : k ≠ l) :
    (m.map (fun p => if p.1 == k then (k, v) else p)).countP
      (fun p => p.1 == l) = m.countP (fun p => p.1 == l) := by
  induction m with
  | nil => rfl
  | cons q rest ih =>
    simp only [List.map_cons, List.countP_cons, ih]
    by_cases hq : q.1 = k
    · simp [hq, h]
    · simp [hq]

lemma dictSet_countP_ne (m : List (String × Series)) (k l : String) (v : Series)
    (h : k ≠ l) :
    (dictSet m k v).countP (fun p => p.1 == l) =
      m.countP (fun p => p.1 == l) := by
  unfold dictSet
  by_cases hany : m.any (fun p => p.1 == k) = true
  · rw [if_pos hany]
    exact countP_map_dict m k l v h
  · rw [if_neg hany, List.countP_append]
    simp [h]

lemma dictSet_countP_self (m : List (String × Series)) (k : String) (v : Series)
    (h : m.countP (fun p => p.1 == k) = 0) :
    (dictSet m k v).countP (fun p => p.1 == k) = 1 := by
  have hany : m.any (fun p => p.1 == k) = false := by
    cases hx : m.any (fun p => p.1 == k) with
    | false => rfl
    | true =>
      obtain ⟨q, hq, hq2⟩ := List.any_eq_true.mp hx
      have hpos : 0 < m.countP (fun p => p.1 == k) :=
        List.countP_pos_iff.mpr ⟨q, hq, hq2⟩
      omega
  unfold dictSet
  rw [hany]
  simp only [Bool.false_eq_true, if_false, List.countP_append, h]
  simp

lemma batchStep_counts_other (zl : String → String)
    (fetch : String → Except FetchError Series) (acc : BatchOut) (d l : String)
    (h : zl d ≠ l) :
    (batchStep zl fetch acc d).results.countP (fun p => p.1 == l) =
        acc.results.countP (fun p => p.1 == l) ∧
    (batchStep zl fetch acc d).errors.countP (fun p => p.1 == l) =
        acc.errors.countP (fun p => p.1 == l) ∧
    (batchStep zl fetch acc d).warned.countP (fun s => s == l) =
        acc.warned.countP (fun s => s == l) := by
  unfold batchStep
  cases hf : fetch d with
  | ok df =>
    dsimp only
    by_cases he : df.isEmpty = true
    · rw [if_pos he]
      refine ⟨rfl, rfl, ?_⟩
      rw [List.countP_append]
      simp [h]
    · rw [if_neg he]
      exact ⟨dictSet_countP_ne _ _ _ _ h, rfl, rfl⟩
  | error ex =>
    dsimp only
    refine ⟨rfl, ?_, rfl⟩
    rw [List.countP_append]
    simp [h]

lemma batchStep_counts_self (zl : String → String)
    (fetch : String → Except FetchError Series) (acc : BatchOut) (d : String)
    (h : acc.results.countP (fun p => p.1 == zl d) = 0) :
    (batchStep zl fetch acc d).results.countP (fun p => p.1 == zl d) +
      (batchStep zl fetch acc d).errors.countP (fun p => p.1 == zl d) +
      (batchStep zl fetch acc d).warned.countP (fun s => s == zl d) =
    acc.results.countP (fun p => p.1 == zl d) +
      acc.errors.countP (fun p => p.1 == zl d) +
      acc.warned.countP (fun s => s == zl d) + 1 := by
  unfold batchStep
  cases hf : fetch d with
  | ok df =>
    dsimp only
    by_cases he : df.isEmpty = true
    · rw [if_pos he]
      simp only [List.countP_append]
      simp
      omega
    · rw [if_neg he]
      dsimp only
      rw [dictSet_countP_self _ _ _ h, h]
      omega
  | error ex =>
    dsimp only
    simp only [List.countP_append]
    simp
    omega

lemma foldl_counts_other (zl : String → String)
    (fetch : String → Except FetchError Series) :
    ∀ (ds : List String) (acc : BatchOut) (l : String),
      (∀ d ∈ ds, zl d ≠ l) →
      (ds.foldl (batchStep zl fetch) acc).results.countP (fun p => p.1 == l) =
          acc.results.countP (fun p => p.1 == l) ∧
      (ds.foldl (batchStep zl fetch) acc).errors.countP (fun p => p.1 == l) =
          acc.errors.countP (fun p => p.1 == l) ∧
      (ds.foldl (batchStep zl fetch) acc).warned.countP (fun s => s == l) =
          acc.warned.countP (fun s => s == l) := by
  intro ds
  induction ds with
  | nil => intro acc l _; exact ⟨rfl, rfl, rfl⟩
  | cons d0 rest ih =>
    intro acc l hl
    have h0 := batchStep_counts_other zl fetch acc d0 l
      (hl d0 (List.mem_cons_self _ _))
    have hr := ih (batchStep zl fetch acc d0) l
      (fun d hd => hl d (List.mem_cons_of_mem _ hd))
    exact ⟨hr.1.trans h0.1, hr.2.1.trans h0.2.1, hr.2.2.trans h0.2.2⟩

lemma batchLoop_go (zl : String → String)
    (fetch : String → Except FetchError Series) :
    ∀ (ds : List String) (acc : BatchOut),
      (ds.map zl).Nodup →
      ∀ d ∈ ds,
        acc.results.countP (fun p => p.1 == zl d) = 0 →
        acc.errors.countP (fun p => p.1 == zl d) = 0 →
        acc.warned.countP (fun s => s == zl d) = 0 →
        (ds.foldl (batchStep zl fetch) acc).results.countP
            (fun p => p.1 == zl d) +
          (ds.foldl (batchStep zl fetch) acc).errors.countP
            (fun p => p.1 == zl d) +
          (ds.foldl (batchStep zl fetch) acc).warned.countP
            (fun s => s == zl d) = 1 := by
  intro ds
  induction ds with
  | nil => intro acc _ d hd; cases hd
  | cons d0 rest ih =>
    intro acc hnd d hd hr0 he0 hw0
    have hnotin : zl d0 ∉ rest.map zl := (List.nodup_cons.mp (by simpa using hnd)).1
    have hnd' : (rest.map zl).Nodup := (List.nodup_cons.mp (by simpa using hnd)).2
    rcases List.mem_cons.mp hd with rfl | hdrest
    · have hstep := batchStep_counts_self zl fetch acc d hr0
      have hother : ∀ d' ∈ rest, zl d' ≠ zl d := by
        intro d' hd' heq
        rw [← heq] at hnotin
        exact hnotin (List.mem_map_of_mem zl hd')
      have hpres := foldl_counts_other zl fetch rest
        (batchStep zl fetch acc d) (zl d) hother
      have hgoal : (rest.foldl (batchStep zl fetch)
          (batchStep zl fetch acc d)).results.countP (fun p => p.1 == zl d) +
          (rest.foldl (batchStep zl fetch)
            (batchStep zl fetch acc d)).errors.countP (fun p => p.1 == zl d) +
          (rest.foldl (batchStep zl fetch)
            (batchStep zl fetch acc d)).warned.countP (fun s => s == zl d) = 1 := by
        rw [hpres.1, hpres.2.1, hpres.2.2]
        omega
      exact hgoal
    · have hne : zl d0 ≠ zl d := by
        intro heq
        rw [heq] at hnotin
        exact hnotin (List.mem_map_of_mem zl hdrest)
      have h0 := batchStep_counts_other zl fetch acc d0 (zl d) hne
      exact ih (batchStep zl fetch acc d0) hnd' d hdrest
        (h0.1.trans hr0) (h0.2.1.trans he0) (h0.2.2.trans hw0)

/-- C3 counterexample: a single target whose fetch succeeds with zero rows
appears in neither the success map nor the failure map — the loop only calls
`st.warning("No data for ...")` — so it is not the case that every requested
target lands in exactly one of the claim's two outcome sets, nor that an
empty fetch "still counts as succeeded with an empty series". -/
theorem batch_outcome_counterexample :
    batchLoop (fun d => d) (fun _ => .ok []) ["FR"] =
      { results := [], errors := [], warned := ["FR"] } := rfl

/-- C3 (corrected): when the resolved labels are pairwise distinct (the
spec's batch invariant), every requested domain lands in exactly one of
*three* outcome sets — the success map (non-empty frame), the failure map
(captured exception), or the empty-data warnings; a target whose fetches all
succeed with zero rows is only warned about and is excluded from both the
success and the failure map.  The loop itself raises nothing: `batchLoop` is
total. -/
theorem batch_outcome_partition (zoneLabel : String → String)
    (fetch : String → Except FetchError Series) (domains : List String)
    (hnd : (domains.map zoneLabel).Nodup) :
    ∀ d ∈ domains,
      (batchLoop zoneLabel fetch domains).results.countP
          (fun p => p.1 == zoneLabel d) +
        (batchLoop zoneLabel fetch domains).errors.countP
          (fun p => p.1 == zoneLabel d) +
        (batchLoop zoneLabel fetch domains).warned.countP
          (fun s => s == zoneLabel d) = 1 :=
  fun d hd =>
    batchLoop_go zoneLabel fetch domains ⟨[], [], []⟩ hnd d hd rfl rfl rfl

/-- Witness for the corrected C3: three domains — one succeeding with data,
one failing, one succeeding empty — each land in exactly one outcome set. -/
theorem batch_outcome_partition_witness :
    (batchLoop (fun x => x)
        (fun x => if x = "FR" then .ok [(0, some 10)]
          else if x = "DE_LU" then .error ⟨5, "DE_LU", startW, endW, "boom"⟩
          else .ok []) ["FR", "DE_LU", "AT"]).results.countP
        (fun p => p.1 == (fun x => x) "AT") +
      (batchLoop (fun x => x)
        (fun x => if x = "FR" then .ok [(0, some 10)]
          else if x = "DE_LU" then .error ⟨5, "DE_LU", startW, endW, "boom"⟩
          else .ok []) ["FR", "DE_LU", "AT"]).errors.countP
        (fun p => p.1 == (fun x => x) "AT") +
      (batchLoop (fun x => x)
        (fun x => if x = "FR" then .ok [(0, some 10)]
          else if x = "DE_LU" then .error ⟨5, "DE_LU", startW, endW, "boom"⟩
          else .ok []) ["FR", "DE_LU", "AT"]).warned.countP
        (fun s => s == (fun x => x) "AT") = 1 :=
  batch_outcome_partition (fun x => x)
    (fun x => if x = "FR" then .ok [(0, some 10)]
      else if x = "DE_LU" then .error ⟨5, "DE_LU", startW, endW, "boom"⟩
      else .ok []) ["FR", "DE_LU", "AT"] (by decide) "AT" (by decide)

/-- C4: per-target failure is atomic and isolated.  With three targets
`a`, `b`, `c` over the same range, if `b`'s first sub-interval fetch
succeeds but every attempt at its second sub-interval fails (exhausting the
retries), then `b`'s whole `fetch_zone_generation` call raises the
`RuntimeError` of the second sub-interval — the already-fetched first frame
is discarded — and the batch records exactly: successful series for `a` and
`c`, one failure entry for `b` carrying the captured error, and no partial
data for `b` anywhere in the result. -/
theorem batch_failure_isolation
    (zl : String → String)
    (calls : String → DateTime → DateTime → Nat → Except String Chunk)
    (a b c : String) (s e : DateTime)
    (i1 i2 : DateTime × DateTime) (restIv : List (DateTime × DateTime))
    (em : Nat → String) (ch1 : Chunk) (sa sc : Series) (mr : Nat)
    (hiv : iter_months s e = i1 :: i2 :: restIv)
    (hb1 : retryLoop (calls b) mr b i1.1 i1.2 = .ok ch1)
    (hb2 : ∀ att, att ≤ mr → calls b i2.1 i2.2 att = .error (em att))
    (ha : fetch_zone_generation (calls a) mr a s e = .ok sa) (hsa : sa ≠ [])
    (hc : fetch_zone_generation (calls c) mr c s e = .ok sc) (hsc : sc ≠ [])
    (hab : zl a ≠ zl b) (hbc : zl b ≠ zl c) (hac : zl a ≠ zl c) :
    fetch_zone_generation (calls b) mr b s e =
      .error ⟨mr, b, i2.1, i2.2, em mr⟩ ∧
    batchLoop zl (fun d => fetch_zone_generation (calls d) mr d s e) [a, b, c] =
      { results := [(zl a, sa), (zl c, sc)],
        errors := [(zl b, ⟨mr, b, i2.1, i2.2, em mr⟩)],
        warned := [] } := by
  obtain ⟨s1, e1⟩ := i1
  obtain ⟨s2, e2⟩ := i2
  have hbfail : retryLoop (calls b) mr b s2 e2 =
      .error ⟨mr, b, s2, e2, em mr⟩ :=
    retryAux_exhausted (calls b) mr b s2 e2 em (mr + 1) 0 (Nat.zero_le _)
      (by omega) (fun i _ hi => hb2 i hi)
  have hbf : fetch_zone_generation (calls b) mr b s e =
      .error ⟨mr, b, s2, e2, em mr⟩ := by
    unfold fetch_zone_generation
    rw [hiv]
    unfold fetchFrames
    rw [hb1]
    unfold fetchFrames
    rw [hbfail]
  refine ⟨hbf, ?_⟩
  have hsaE : sa.isEmpty = false := List.isEmpty_eq_false.mpr hsa
  have hscE : sc.isEmpty = false := List.isEmpty_eq_false.mpr hsc
  have hacb : ((fun p => p.1 == zl c) (zl a, sa)) = false := by
    simp [hac]
  unfold batchLoop
  simp only [List.foldl_cons, List.foldl_nil]
  simp only [batchStep, ha, hbf, hc, hsaE, Bool.false_eq_true, if_false, hscE]
  simp only [dictSet, List.any_nil, List.any_cons, hacb, Bool.or_self,
    Bool.false_eq_true, if_false, List.nil_append]
  simp

/-- 2025-02-01 00:00 UTC: the boundary between the two sub-intervals of the
witness range. -/
def febW : DateTime := ⟨2025, 2, 1, 0, 0⟩

/-- Witness oracle: every call returns one row `(00:00, 10)` except that
target "B"'s second sub-interval (starting 2025-02-01) always fails. -/
def callsW : String → DateTime → DateTime → Nat → Except String Chunk :=
  fun d s _ _ =>
    if d = "B" ∧ s = febW then .error "rate limited" else .ok [(0, 10)]

set_option maxRecDepth 40000 in
/-- Witness for C4 at the concrete range 2025-01-01 → 2025-02-15 with targets
"A", "B", "C", where "B"'s second month always fails. -/
theorem batch_failure_isolation_witness :
    fetch_zone_generation (callsW "B") 5 "B" startW endW =
      .error ⟨5, "B", (febW, endW).1, (febW, endW).2, "rate limited"⟩ ∧
    batchLoop (fun x => x)
        (fun d => fetch_zone_generation (callsW d) 5 d startW endW)
        ["A", "B", "C"] =
      { results := [("A", [(0, some 10)]), ("C", [(0, some 10)])],
        errors := [("B", ⟨5, "B", (febW, endW).1, (febW, endW).2,
          "rate limited"⟩)],
        warned := [] } :=
  batch_failure_isolation (fun x => x) callsW "A" "B" "C" startW endW
    (startW, febW) (febW, endW) [] (fun _ => "rate limited") [(0, 10)]
    [(0, some 10)] [(0, some 10)] 5
    (by decide) rfl (fun att _ => rfl)
    (by decide!) (by decide) (by decide!) (by decide)
    (by decide) (by decide) (by decide)

/-- Length of the leading run of copies of `c`, and the remainder after it. -/
def takeRun (c : Char) : List Char → Nat × List Char
  | [] => (0, [])
  | x :: rest =>
    if x = c then
      let r := takeRun c rest
      (r.1 + 1, r.2)
    else (0, x :: rest)

/-- One attempt, at the head of the input, of the raw-string pattern
`r'for\\s+(\\w+)'` from `entsoe_bot.py` line 13.  As a regex the doubled
backslashes are escapes for a literal backslash, so the pattern is: the
literals `f`,`o`,`r`,`\`, then one or more literal `s`, then the group — a
literal `\` followed by one or more literal `w`.  Adjacent atoms draw from
disjoint character sets (`s` vs `\`), so maximal-run matching without
backtracking is exactly the regex semantics; the returned group is maximal,
as `re` produces. -/
def matchP1At : List Char → Option (List Char)
  | c1 :: c2 :: c3 :: c4 :: rest =>
    if c1 = 'f' ∧ c2 = 'o' ∧ c3 = 'r' ∧ c4 = '\\' then
      let r1 := takeRun 's' rest
      if r1.1 = 0 then none
      else
        match r1.2 with
        | c5 :: r2 =>
          if c5 = '\\' then
            let r3 := takeRun 'w' r2
            if r3.1 = 0 then none
            else some ('\\' :: List.replicate r3.1 'w')
          else none
        | [] => none
    else none
  | _ => none

/-- One attempt of the sub-pattern `\\d{4}-\\d{2}-\\d{2}`: a literal `\`,
four literal `d`, `-`, literal `\`, two `d`, `-`, literal `\`, two `d`. -/
def matchEscDate : List Char → Option (List Char × List Char)
  | c1 :: c2 :: c3 :: c4 :: c5 :: c6 :: c7 :: c8 :: c9 :: c10 :: c11 :: c12 :: c13 :: rest =>
    if c1 = '\\' ∧ c2 = 'd' ∧ c3 = 'd' ∧ c4 = 'd' ∧ c5 = 'd' ∧ c6 = '-' ∧
        c7 = '\\' ∧ c8 = 'd' ∧ c9 = 'd' ∧ c10 = '-' ∧ c11 = '\\' ∧
        c12 = 'd' ∧ c13 = 'd' then
      some ([c1, c2, c3, c4, c5, c6, c7, c8, c9, c10, c11, c12, c13], rest)
    else none
  | _ => none

/-- One attempt, at the head of the input, of the raw-string pattern
`r'from\\s+(\\d{4}-\\d{2}-\\d{2})\\s+to\\s+(\\d{4}-\\d{2}-\\d{2})'` from
`entsoe_bot.py` line 16 (again with every `\\` a literal backslash and the
class letters taken literally). -/
def matchP2At : List Char → Option (List Char × List Char)
  | c1 :: c2 :: c3 :: c4 :: c5 :: rest =>
    if c1 = 'f' ∧ c2 = 'r' ∧ c3 = 'o' ∧ c4 = 'm' ∧ c5 = '\\' then
      let r1 := takeRun 's' rest
      if r1.1 = 0 then none
      else
        match matchEscDate r1.2 with
        | none => none
        | some (g1, r2) =>
          match r2 with
          | c6 :: r3 =>
            if c6 = '\\' then
              let r4 := takeRun 's' r3
              if r4.1 = 0 then none
              else
                match r4.2 with
                | c7 :: c8 :: c9 :: r5 =>
                  if c7 = 't' ∧ c8 = 'o' ∧ c9 = '\\' then
                    let r6 := takeRun 's' r5
                    if r6.1 = 0 then none
                    else
                      match matchEscDate r6.2 with
                      | none => none
                      | some (g2, _) => some (g1, g2)
                  else none
                | _ => none
            else none
          | [] => none
    else none
  | _ => none

/-- `re.search` for pattern 1: try a match at every position, left to right.
`fuel` bounds the scan; `searchP1` passes `length + 1`, enough to try every
suffix including the empty one. -/
def searchP1Aux : Nat → List Char → Option (List Char)
  | 0, _ => none
  | fuel + 1, l =>
    match matchP1At l with
    | some g => some g
    | none =>
      match l with
      | [] => none
      | _ :: rest => searchP1Aux fuel rest

/-- `re.search(r'for\\s+(\\w+)', query)`. -/
def searchP1 (l : List Char) : Option (List Char) :=
  searchP1Aux (l.length + 1) l

/-- `re.search` for pattern 2. -/
def searchP2Aux : Nat → List Char → Option (List Char × List Char)
  | 0, _ => none
  | fuel + 1, l =>
    match matchP2At l with
    | some g => some g
    | none =>
      match l with
      | [] => none
      | _ :: rest => searchP2Aux fuel rest

/-- `re.search(r'from\\s+(\\d{4}-...)\\s+to\\s+(...)', query)`. -/
def searchP2 (l : List Char) : Option (List Char × List Char) :=
  searchP2Aux (l.length + 1) l

/-- `parse_query` from `entsoe_bot.py` (lines 12-20): the two `re.search`
calls; each component is the captured group of its match, or `None` when the
search found nothing. -/
def parse_query (query : List Char) :
    Option (List Char) × Option (List Char) × Option (List Char) :=
  (searchP1 query, (searchP2 query).map Prod.fst,
    (searchP2 query).map Prod.snd)

/-- Python `str.capitalize()`: first character upper-cased, the rest
lower-cased. -/
def capitalizeStr : List Char → List Char
  | [] => []
  | c :: rest => c.toUpper :: rest.map Char.toLower

/-- `country_code_map` from `entsoe_bot.py` lines 22-28. -/
def country_code_map : List (List Char × List Char) :=
  [("France".toList, "FR".toList), ("Germany".toList, "DE".toList),
   ("Italy".toList, "IT".toList), ("Spain".toList, "ES".toList),
   ("Sweden".toList, "SE".toList), ("Denmark".toList, "DK".toList),
   ("Belgium".toList, "BE".toList), ("Netherlands".toList, "NL".toList),
   ("Austria".toList, "AT".toList), ("Poland".toList, "PL".toList),
   ("Czech".toList, "CZ".toList), ("Portugal".toList, "PT".toList),
   ("Finland".toList, "FI".toList), ("Norway".toList, "NO".toList),
   ("Switzerland".toList, "CH".toList), ("Ireland".toList, "IE".toList),
   ("Hungary".toList, "HU".toList), ("Slovakia".toList, "SK".toList),
   ("Slovenia".toList, "SI".toList), ("Greece".toList, "GR".toList),
   ("Romania".toList, "RO".toList), ("Bulgaria".toList, "BG".toList),
   ("Croatia".toList, "HR".toList), ("Estonia".toList, "EE".toList),
   ("Latvia".toList, "LV".toList), ("Lithuania".toList, "LT".toList)]

/-- Line 31: `country_code_map.get(country_name.capitalize())`.  When
`parse_query` produced no country name, the attribute access
`.capitalize()` on `None` raises an `AttributeError` (modelled as the error
outcome); otherwise the dict lookup yields the code or `None`. -/
def resolve_country_code (country_name : Option (List Char)) :
    Except String (Option (List Char)) :=
  match country_name with
  | none => .error "AttributeError"
  | some n => .ok (country_code_map.lookup (capitalizeStr n))

lemma matchP1At_eq_none {l : List Char} (h : '\\' ∉ l) : matchP1At l = none := by
  match l, h with
  | [], _ => rfl
  | [c1], _ => rfl
  | [c1, c2], _ => rfl
  | [c1, c2, c3], _ => rfl
  | c1 :: c2 :: c3 :: c4 :: rest, h =>
    have hc : ¬(c1 = 'f' ∧ c2 = 'o' ∧ c3 = 'r' ∧ c4 = '\\') := by
      intro hcc
      obtain ⟨-, -, -, h4⟩ := hcc
      subst h4
      exact h (by simp)
    simp only [matchP1At]
    rw [if_neg hc]

lemma matchP2At_eq_none {l : List Char} (h : '\\' ∉ l) : matchP2At l = none := by
  match l, h with
  | [], _ => rfl
  | [c1], _ => rfl
  | [c1, c2], _ => rfl
  | [c1, c2, c3], _ => rfl
  | [c1, c2, c3, c4], _ => rfl
  | c1 :: c2 :: c3 :: c4 :: c5 :: rest, h =>
    have hc : ¬(c1 = 'f' ∧ c2 = 'r' ∧ c3 = 'o' ∧ c4 = 'm' ∧ c5 = '\\') := by
      intro hcc
      obtain ⟨-, -, -, -, h5⟩ := hcc
      subst h5
      exact h (by simp)
    simp only [matchP2At]
    rw [if_neg hc]

lemma searchP1Aux_none : ∀ (fuel : Nat) (l : List Char), '\\' ∉ l →
    searchP1Aux fuel l = none := by
  intro fuel
  induction fuel with
  | zero => intro l _; rfl
  | succ f ih =>
    intro l hl
    cases l with
    | nil => rfl
    | cons c rest =>
      show (match matchP1At (c :: rest) with
        | some g => some g
        | none => searchP1Aux f rest) = none
      rw [matchP1At_eq_none hl]
      exact ih rest (fun hc => hl (List.mem_cons_of_mem c hc))

lemma searchP2Aux_none : ∀ (fuel : Nat) (l : List Char), '\\' ∉ l →
    searchP2Aux fuel l = none := by
  intro fuel
  induction fuel with
  | zero => intro l _; rfl
  | succ f ih =>
    intro l hl
    cases l with
    | nil => rfl
    | cons c rest =>
      show (match matchP2At (c :: rest) with
        | some g => some g
        | none => searchP2Aux f rest) = none
      rw [matchP2At_eq_none hl]
      exact ih rest (fun hc => hl (List.mem_cons_of_mem c hc))

/-- C9: on every query without a literal backslash — including the
documented example query — `parse_query` returns `(None, None, None)`,
because the doubled backslashes in its raw-string patterns match literal
backslash characters rather than whitespace/word/digit classes; the
subsequent `country_name.capitalize()` on line 31 then fails on `None` with
an `AttributeError`. -/
theorem parse_query_backslash_bug (query : List Char) (h : '\\' ∉ query) :
    parse_query query = (none, none, none) ∧
    resolve_country_code (parse_query query).1 = .error "AttributeError" := by
  have h1 : searchP1 query = none := searchP1Aux_none _ _ h
  have h2 : searchP2 query = none := searchP2Aux_none _ _ h
  have hpq : parse_query query = (none, none, none) := by
    unfold parse_query
    rw [h1, h2]
    rfl
  refine ⟨hpq, ?_⟩
  rw [hpq]
  rfl

/-- Witness for C9 at the documented example query. -/
theorem parse_query_backslash_bug_witness :
    parse_query
        ("Get hourly generation data for France from 2025-03-01 to 2025-06-30".toList) =
      (none, none, none) ∧
    resolve_country_code (parse_query
        ("Get hourly generation data for France from 2025-03-01 to 2025-06-30".toList)).1 =
      .error "AttributeError" :=
  parse_query_backslash_bug
    ("Get hourly generation data for France from 2025-03-01 to 2025-06-30".toList)
    (by decide)

/-- One attempt of the regex `\d{4}-\d{2}-\d{2}` (line 159) at the head of
the input: exactly four digits, a dash, two digits, a dash, two digits.
Returns the ten matched characters and the rest of the input. -/
def matchDateAt : List Char → Option (List Char × List Char)
  | y1 :: y2 :: y3 :: y4 :: s1 :: m1 :: m2 :: s2 :: d1 :: d2 :: rest =>
    if y1.isDigit ∧ y2.isDigit ∧ y3.isDigit ∧ y4.isDigit ∧ s1 = '-' ∧
        m1.isDigit ∧ m2.isDigit ∧ s2 = '-' ∧ d1.isDigit ∧ d2.isDigit then
      some ([y1, y2, y3, y4, s1, m1, m2, s2, d1, d2], rest)
    else none
  | _ => none

/-- `re.findall(r"\d{4}-\d{2}-\d{2}", s)` (line 159): scan left to right for
non-overlapping leftmost matches; on a match resume after its last character,
otherwise advance one character.  `fuel` bounds the scan — each step consumes
at least one character, so `findDates` passes `l.length`. -/
def findDatesAux : Nat → List Char → List (List Char)
  | 0, _ => []
  | fuel + 1, l =>
    match l with
    | [] => []
    | c :: rest =>
      match matchDateAt (c :: rest) with
      | some (m, rest2) => m :: findDatesAux fuel rest2
      | none => findDatesAux fuel rest

/-- All `YYYY-MM-DD`-shaped substrings of the input, in order. -/
def findDates (l : List Char) : List (List Char) :=
  findDatesAux l.length l

/-- Numeric value of a digit character. -/
def digitVal (c : Char) : Nat := c.toNat - '0'.toNat

/-- Whole minutes of `pandas.Timestamp.min` (1677-09-21 00:12:43.145224193):
the earliest whole-minute instant a Timestamp can hold is 00:13. -/
def tsMin : Nat := DateTime.toMinutes ⟨1677, 9, 21, 0, 13⟩

/-- Whole minutes of `pandas.Timestamp.max` (2262-04-11 23:47:16.854775807):
the latest whole-minute instant a Timestamp can hold is 23:47. -/
def tsMax : Nat := DateTime.toMinutes ⟨2262, 4, 11, 23, 47⟩

/-- `pd.Timestamp(ds + " HH:MM", tz="UTC")` for a ten-character `YYYY-MM-DD`
string (lines 163-164): parse the fields and validate as pandas does — the
month must be 1..12, the day within the month's length, and the instant
within the representable int64-nanosecond range; otherwise the construction
raises a `ValueError` (pandas' `OutOfBoundsDatetime` is a `ValueError`
subclass), modelled as `none`. -/
def mkTimestampUTC (ds : List Char) (hour minute : Nat) : Option DateTime :=
  match ds with
  | [y1, y2, y3, y4, _, m1, m2, _, d1, d2] =>
    let y := ((digitVal y1 * 10 + digitVal y2) * 10 + digitVal y3) * 10 +
      digitVal y4
    let m := digitVal m1 * 10 + digitVal m2
    let d := digitVal d1 * 10 + digitVal d2
    let ts : DateTime := ⟨y, m, d, hour, minute⟩
    if 1 ≤ m ∧ m ≤ 12 ∧ 1 ≤ d ∧ d ≤ daysInMonth y m ∧
        tsMin ≤ ts.toMinutes ∧ ts.toMinutes ≤ tsMax then
      some ts
    else none
  | _ => none

/-- The tail of `parse_date_text` after `re.findall` (lines 160-167): fewer
than two matches raises `ValueError`; otherwise `start` is built from the
first match at 00:00 and `end` from the second at 23:59 (each `pd.Timestamp`
construction may itself raise `ValueError`); finally `end < start` raises
`ValueError`.  Matches beyond the first two are ignored by the wildcard. -/
def parseFromMatches : List (List Char) → Except String (DateTime × DateTime)
  | d1 :: d2 :: _ =>
    match mkTimestampUTC d1 0 0 with
    | none => .error "ValueError: could not parse start date"
    | some st =>
      match mkTimestampUTC d2 23 59 with
      | none => .error "ValueError: could not parse end date"
      | some en =>
        if en.toMinutes < st.toMinutes then
          .error "End date is before start date."
        else .ok (st, en)
  | _ => .error "Please provide two dates in YYYY-MM-DD format."

/-- `parse_date_text` from `streamlit_app.py` (lines 154-167). -/
def parse_date_text (s : List Char) : Except String (DateTime × DateTime) :=
  parseFromMatches (findDates s)

/-- C10 counterexample: "2025-02-30 2025-02-30" contains two
`YYYY-MM-DD`-shaped substrings and the second is not strictly earlier than
the first (they are equal), so by the claim `parse_date_text` should succeed;
but `pd.Timestamp("2025-02-30 00:00")` raises `ValueError` (February has no
30th day), so the function raises — the claimed "if and only if" fails. -/
theorem parse_date_text_counterexample :
    (findDates ("2025-02-30 2025-02-30".toList)).length = 2 ∧
    findDates ("2025-02-30 2025-02-30".toList) =
      ["2025-02-30".toList, "2025-02-30".toList] ∧
    parse_date_text ("2025-02-30 2025-02-30".toList) =
      .error "ValueError: could not parse start date" :=
  ⟨by decide, by decide, by decide⟩

/-- C10 (corrected): `parse_date_text` raises `ValueError` if and only if
its input contains fewer than two `YYYY-MM-DD` substrings, or one of the
first two is rejected by `pd.Timestamp` (not a valid calendar date, or out of
the representable range), or the second date is strictly earlier than the
first.  When the first two matches yield valid timestamps with
`start ≤ end` — in particular when the two dates are equal, giving that
day's 00:00 as start and 23:59 as end — it succeeds, and any matches beyond
the first two are ignored. -/
theorem parse_date_text_spec (s : List Char) :
    ((∃ msg, parse_date_text s = .error msg) ↔
      ((findDates s).length < 2 ∨
       (∃ d1 d2 rest, findDates s = d1 :: d2 :: rest ∧
         (mkTimestampUTC d1 0 0 = none ∨
          (∃ st, mkTimestampUTC d1 0 0 = some st ∧
            (mkTimestampUTC d2 23 59 = none ∨
             (∃ en, mkTimestampUTC d2 23 59 = some en ∧
               en.toMinutes < st.toMinutes))))))) ∧
    (∀ d1 d2 rest st en, findDates s = d1 :: d2 :: rest →
      mkTimestampUTC d1 0 0 = some st →
      mkTimestampUTC d2 23 59 = some en →
      st.toMinutes ≤ en.toMinutes →
      parse_date_text s = .ok (st, en)) := by
  unfold parse_date_text
  cases hf : findDates s with
  | nil =>
    refine ⟨⟨fun _ => Or.inl (by simp), fun _ => ⟨_, rfl⟩⟩, ?_⟩
    intro d1 d2 rest st en hcons
    exact absurd hcons (by simp)
  | cons d1 tail =>
    cases tail with
    | nil =>
      refine ⟨⟨fun _ => Or.inl (by simp), fun _ => ⟨_, rfl⟩⟩, ?_⟩
      intro a b rest st en hcons
      simp at hcons
    | cons d2 rest0 =>
      cases hm1 : mkTimestampUTC d1 0 0 with
      | none =>
        have hpm : parseFromMatches (d1 :: d2 :: rest0) =
            .error "ValueError: could not parse start date" := by
          simp only [parseFromMatches, hm1]
        refine ⟨⟨fun _ => Or.inr ⟨d1, d2, rest0, rfl, Or.inl hm1⟩,
          fun _ => ⟨_, hpm⟩⟩, ?_⟩
        intro a b rest st en hcons h1 h2 hge
        cases hcons
        rw [hm1] at h1
        cases h1
      | some st0 =>
        cases hm2 : mkTimestampUTC d2 23 59 with
        | none =>
          have hpm : parseFromMatches (d1 :: d2 :: rest0) =
              .error "ValueError: could not parse end date" := by
            simp only [parseFromMatches, hm1, hm2]
          refine ⟨⟨fun _ => Or.inr ⟨d1, d2, rest0, rfl,
            Or.inr ⟨st0, hm1, Or.inl hm2⟩⟩, fun _ => ⟨_, hpm⟩⟩, ?_⟩
          intro a b rest st en hcons h1 h2 hge
          cases hcons
          rw [hm2] at h2
          cases h2
        | some en0 =>
          by_cases hlt : en0.toMinutes < st0.toMinutes
          · have hpm : parseFromMatches (d1 :: d2 :: rest0) =
                .error "End date is before start date." := by
              simp only [parseFromMatches, hm1, hm2]
              rw [if_pos hlt]
            refine ⟨⟨fun _ => Or.inr ⟨d1, d2, rest0, rfl,
              Or.inr ⟨st0, hm1, Or.inr ⟨en0, hm2, hlt⟩⟩⟩,
              fun _ => ⟨_, hpm⟩⟩, ?_⟩
            intro a b rest st en hcons h1 h2 hge
            cases hcons
            rw [hm1] at h1
            rw [hm2] at h2
            cases h1
            cases h2
            omega
          · have hpm : parseFromMatches (d1 :: d2 :: rest0) =
                .ok (st0, en0) := by
              simp only [parseFromMatches, hm1, hm2]
              rw [if_neg hlt]
            constructor
            · constructor
              · intro hex
                obtain ⟨msg, hmsg⟩ := hex
                rw [hpm] at hmsg
                cases hmsg
              · intro hcases
                rcases hcases with hlen | ⟨a, b, rest, hcons, hbad⟩
                · simp only [List.length_cons] at hlen
                  omega
                · cases hcons
                  rcases hbad with hb1 | ⟨st, hst, hb2⟩
                  · rw [hm1] at hb1; cases hb1
                  · rw [hm1] at hst
                    cases hst
                    rcases hb2 with hb3 | ⟨en, hen, hb4⟩
                    · rw [hm2] at hb3; cases hb3
                    · rw [hm2] at hen
                      cases hen
                      omega
            · intro a b rest st en hcons h1 h2 hge
              cases hcons
              rw [hm1] at h1
              rw [hm2] at h2
              cases h1
              cases h2
              exact hpm

/-- Witness for the corrected C10: "2025-01-01 2025-01-01" (two equal valid
dates) parses successfully into that day's 00:00 and 23:59. -/
theorem parse_date_text_spec_witness :
    ((∃ msg, parse_date_text ("2025-01-01 2025-01-01".toList) = .error msg) ↔
      ((findDates ("2025-01-01 2025-01-01".toList)).length < 2 ∨
       (∃ d1 d2 rest, findDates ("2025-01-01 2025-01-01".toList) =
           d1 :: d2 :: rest ∧
         (mkTimestampUTC d1 0 0 = none ∨
          (∃ st, mkTimestampUTC d1 0 0 = some st ∧
            (mkTimestampUTC d2 23 59 = none ∨
             (∃ en, mkTimestampUTC d2 23 59 = some en ∧
               en.toMinutes < st.toMinutes))))))) ∧
    (∀ d1 d2 rest st en, findDates ("2025-01-01 2025-01-01".toList) =
        d1 :: d2 :: rest →
      mkTimestampUTC d1 0 0 = some st →
      mkTimestampUTC d2 23 59 = some en →
      st.toMinutes ≤ en.toMinutes →
      parse_date_text ("2025-01-01 2025-01-01".toList) = .ok (st, en)) :=
  parse_date_text_spec ("2025-01-01 2025-01-01".toList)

/-- One `add_worksheet` request to xlsxwriter: the new sheet name is
appended, unless a sheet of that name already exists, in which case
xlsxwriter raises `DuplicateWorksheetName` and the workbook build aborts
(nothing in `excel_bytes` catches it). -/
def addSheet (existing : List String) (name : String) :
    Except String (List String) :=
  if name ∈ existing then .error ("DuplicateWorksheetName: " ++ name)
  else .ok (existing ++ [name])

/-- The worksheet creation performed by the loop of `excel_bytes`
(lines 226-237): each label is truncated to 31 characters
(`safe_name = sheet_name[:31]`) and written, with no collision
disambiguation. -/
def excelSheets (acc : List String) :
    List (String × Series) → Except String (List String)
  | [] => .ok acc
  | (nm, _) :: rest =>
    match addSheet acc (nm.take 31) with
    | .error e => .error e
    | .ok acc2 => excelSheets acc2 rest

/-- The observable sheet-name behaviour of `excel_bytes` (lines 218-238): a
"README" sheet is written first, then one sheet per entry with the truncated
name.  The result is the ordered list of sheet names the workbook will
contain, or the duplicate-name error when two truncated names collide (the
binary payload itself is out of scope; sheet names and their order determine
the distinguishability property at issue). -/
def excel_bytes (sheets : List (String × Series)) :
    Except String (List String) :=
  excelSheets ["README"] sheets

set_option maxRecDepth 40000 in
/-- C8 (code bug): `excel_bytes` truncates sheet labels to 31 characters
with no disambiguation, so two distinct successful-target labels agreeing on
their first 31 characters collide: the workbook build raises xlsxwriter's
duplicate-worksheet error instead of containing a distinguishable sheet per
label, contradicting the spec's required deterministic disambiguation. -/
theorem excel_truncation_collision :
    ("AAAAAAAAAAAAAAAAAAAAAAAAAAAAAAAX" : String) ≠
      "AAAAAAAAAAAAAAAAAAAAAAAAAAAAAAAY" ∧
    excel_bytes [("AAAAAAAAAAAAAAAAAAAAAAAAAAAAAAAX", []),
        ("AAAAAAAAAAAAAAAAAAAAAAAAAAAAAAAY", [])] =
      .error ("DuplicateWorksheetName: " ++ "AAAAAAAAAAAAAAAAAAAAAAAAAAAAAAA") :=
  ⟨by decide, by decide⟩
